import Mathlib

/-!
The serial exchange of readsensor (`main.c`).

A shallow embedding of `main` (src/main.c) from the point where the serial
device is open: the command written with `fprintf`, the `for (;;)` receive loop
built on `select`/`read`/`clock_gettime`, and the final `printf("%s", buffer)`.

The environment is explicit.  Every pass of the loop is given one `Poll`, the
record of what `select`, `read` and `clock_gettime` answer on that pass; the
loop reads only the fields the C code reads on the branch it takes.
-/

namespace ReadSensor

/-! ## Data -/

/-- One `char` as stored by `read(serial_fd, &c, sizeof(char))`. -/
abbrev Byte := Fin 256

/-- Line feed, the `10` of `if (c == 10)`. -/
def LF : Byte := 10

/-- Carriage return, the `13` of `if (c == 13)`. -/
def CR : Byte := 13

/-- The `sizeof(buffer)` of `char buffer[1024]`. -/
def BUFFER_SIZE : Nat := 1024

/-- A `struct timespec`. -/
structure Timespec where
  tv_sec : Int
  tv_nsec : Int
  deriving DecidableEq, Repr

/-- The answers of the system calls during one pass of the loop body:
`r` is the return value of `select`, `rr` the return value of `read`, `c` the
byte `read` stores when it returns a positive count, and `clock` the reading of
`clock_gettime(CLOCK_MONOTONIC, &tp_current)` (`none` when it returns `< 0`). -/
structure Poll where
  r : Int
  rr : Int
  c : Byte
  clock : Option Timespec
  deriving DecidableEq, Repr

/-- The local variables of the loop: the array `buffer`, the offset
`buffer_idx - (char*) &buffer`, and `state_end`. -/
structure State where
  buffer : List Byte
  buffer_idx : Nat
  state_end : Nat
  deriving DecidableEq, Repr

/-- The ways one pass can leave the loop. -/
inductive Stop where
  /-- Either `break`: the frame is delimited. -/
  | done (st : State)
  /-- Taken when `select` returned `-1` (`return 4`). -/
  | pollFailed
  /-- Taken when `read` returned a negative count (`return 4`). -/
  | readFailed
  /-- Taken when `read` returned `0`, the end of file (`return 4`). -/
  | endOfFile
  /-- Taken when `clock_gettime` failed inside the loop (`return 3`). -/
  | clockFailed
  /-- Taken when `delta >= timeout` (`return 4`). -/
  | timedOut
  /-- Signed overflow while computing `delta`: the C standard leaves the
  behaviour undefined. -/
  | overflow
  deriving DecidableEq, Repr

/-- One pass of the loop body either goes round again (`continue`, or falling
off the end of the body) or leaves the loop. -/
inductive Step where
  | next (st : State)
  | stop (s : Stop)
  deriving DecidableEq, Repr

/-- The loop over a finite record of polls: it has left the loop, or it has used
up the record and is still polling. -/
inductive Outcome where
  | stopped (s : Stop)
  | polling (st : State)
  deriving DecidableEq, Repr

/-- What the process leaves behind: the bytes written to standard output and the
exit status. -/
structure Exit where
  stdout : List Byte
  status : Nat
  deriving DecidableEq, Repr

/-! ## The command (lines 88-102) -/

/-- The `fprintf` formatting used by the program: the format is copied, each `%s`
replaced by the next argument.  Arguments are copied, not scanned again.  (A `%s`
without an argument does not occur in the program; the directive is then copied
as text.) -/
def format_s : List Char → List (List Char) → List Char
  | '%' :: 's' :: fmt, a :: args => a ++ format_s fmt args
  | ch :: fmt, args => ch :: format_s fmt args
  | [], _ => []

/-- The bytes handed to `fprintf(serial, ...)`: the write form when `aset != NULL`,
the read form otherwise. -/
def command (sensor_id : List Char) (aset : Option (List Char)) : List Char :=
  match aset with
  | some v => format_s "ACOM /%s %s\n".toList [sensor_id, v]
  | none => format_s "ACOM /%s\n".toList [sensor_id]

/-! ## The clock arithmetic (lines 171-172) -/

/-- Whether `x` is a value of a signed `long` of `w` bits. -/
def fitsLong (w : Nat) (x : Int) : Bool :=
  decide (-(2 : Int) ^ (w - 1) ≤ x) && decide (x < (2 : Int) ^ (w - 1))

/-- The subexpression `tp.tv_sec * 1000 + tp.tv_nsec / 1000000`, in `long`
arithmetic of `w` bits; `none` when a step overflows.  C division truncates. -/
def millis (w : Nat) (tp : Timespec) : Option Int :=
  let a := tp.tv_sec * 1000
  let s := a + tp.tv_nsec.tdiv 1000000
  if fitsLong w a && fitsLong w s then some s else none

/-- The value of `long delta`; `none` when the arithmetic overflows. -/
def delta (w : Nat) (tp_start tp_current : Timespec) : Option Int :=
  match millis w tp_current, millis w tp_start with
  | some x, some y => if fitsLong w (x - y) then some (x - y) else none
  | _, _ => none

/-! ## The receive loop (lines 111-179) -/

/-- The state on entry to the loop: `char buffer[1024] = {0,}`,
`buffer_idx = (char*) &buffer`, `state_end = 0`. -/
def initial : State :=
  { buffer := List.replicate BUFFER_SIZE 0, buffer_idx := 0, state_end := 0 }

/-- One pass of the loop body.  `w` is the width of `long`, `tp_start` the clock
reading taken before the loop, `timeout` the value of the `unsigned short`. -/
def step (w : Nat) (tp_start : Timespec) (timeout : Nat) (st : State) (p : Poll) : Step :=
  if p.r = -1 then
    .stop .pollFailed
  else if p.r ≠ 0 then
    if p.rr < 0 then
      .stop .readFailed
    else if p.rr = 0 then
      .stop .endOfFile
    else if p.c = 10 then
      if st.state_end = 1 then
        .stop (.done st)
      else
        .next { st with state_end := st.state_end + 1 }
    else if p.c = 13 then
      .stop (.done st)
    else if st.buffer_idx ≥ BUFFER_SIZE then
      .next st
    else
      .next { st with buffer := st.buffer.set st.buffer_idx p.c,
                      buffer_idx := st.buffer_idx + 1 }
  else
    match p.clock with
    | none => .stop .clockFailed
    | some tp_current =>
      match delta w tp_start tp_current with
      | none => .stop .overflow
      | some d => if d ≥ (timeout : Int) then .stop .timedOut else .next st

/-- The `for (;;)` loop run against a record of polls.  Returns how the loop
stands and the polls it did not consume. -/
def loop (w : Nat) (tp_start : Timespec) (timeout : Nat) : State → List Poll → Outcome × List Poll
  | st, [] => (.polling st, [])
  | st, p :: ps =>
    match step w tp_start timeout st p with
    | .next st1 => loop w tp_start timeout st1 ps
    | .stop s => (.stopped s, ps)

/-! ## After the loop (lines 181-186) -/

/-- The bytes `printf("%s", buffer)` writes: those before the first NUL of the
array.  `none` when the array holds no NUL, where `printf` reads past its end. -/
def printf_s (buffer : List Byte) : Option (List Byte) :=
  if (0 : Byte) ∈ buffer then some (buffer.takeWhile (fun b => b ≠ 0)) else none

/-- The standard output and exit status the program ends with.  `none` when the
loop has not left (`polling`) or the behaviour is undefined. -/
def finish : Outcome → Option Exit
  | .stopped (.done st) => (printf_s st.buffer).map (fun out => { stdout := out, status := 0 })
  | .stopped .pollFailed => some { stdout := [], status := 4 }
  | .stopped .readFailed => some { stdout := [], status := 4 }
  | .stopped .endOfFile => some { stdout := [], status := 4 }
  | .stopped .timedOut => some { stdout := [], status := 4 }
  | .stopped .clockFailed => some { stdout := [], status := 3 }
  | .stopped .overflow => none
  | .polling _ => none

/-- Lines 104-186: the start reading of the clock (`none` when `clock_gettime`
fails, `return 3`), the loop from the initial state, the output. -/
def receive (w : Nat) (clock_start : Option Timespec) (timeout : Nat) (polls : List Poll) :
    Option Exit :=
  match clock_start with
  | none => some { stdout := [], status := 3 }
  | some tp_start => finish (loop w tp_start timeout initial polls).1

/-! ## Vocabulary of the statements -/

/-- A pass on which `select` reports the descriptor readable and `read` delivers
one byte. -/
def Poll.delivers (p : Poll) : Prop := p.r ≠ -1 ∧ p.r ≠ 0 ∧ 0 < p.rr

instance (p : Poll) : Decidable p.delivers :=
  inferInstanceAs (Decidable (p.r ≠ -1 ∧ p.r ≠ 0 ∧ 0 < p.rr))

/-- The state in which `acc` has been stored at the front of the zeroed array
and `se` line feeds have been counted. -/
def stateOf (acc : List Byte) (se : Nat) : State :=
  { buffer := acc ++ List.replicate (BUFFER_SIZE - acc.length) 0,
    buffer_idx := acc.length, state_end := se }

/-- The accumulated response: the bytes stored so far. -/
def State.response (st : State) : List Byte := st.buffer.take st.buffer_idx

/-- An ordinary byte: neither LF nor CR. -/
def ordinary (b : Byte) : Prop := b ≠ 10 ∧ b ≠ 13

instance (b : Byte) : Decidable (ordinary b) :=
  inferInstanceAs (Decidable (b ≠ 10 ∧ b ≠ 13))

/-- A pass that delivers the byte `c`: `select` returns 1, `read` returns 1, and
the clock would read `clk`. -/
def bytePoll (c : Byte) (clk : Option Timespec) : Poll := { r := 1, rr := 1, c := c, clock := clk }

/-- A pass on which nothing is readable (`select` returns 0) and the clock reads
`clk`. -/
def idlePoll (clk : Timespec) : Poll := { r := 0, rr := 0, c := 0, clock := some clk }

/-- The time from reading `s` to reading `c` of the clock, in nanoseconds. -/
def spec_elapsed_ns (s c : Timespec) : Int :=
  (c.tv_sec - s.tv_sec) * 1000000000 + (c.tv_nsec - s.tv_nsec)

/-- Position `i` of the stream holds a CR, or the second LF of the stream. -/
def spec_isTerminator (bs : List Byte) (i : Nat) : Prop :=
  bs[i]? = some 13 ∨ (bs[i]? = some 10 ∧ (bs.take i).count 10 = 1)

instance (bs : List Byte) (i : Nat) : Decidable (spec_isTerminator bs i) :=
  inferInstanceAs (Decidable (bs[i]? = some 13 ∨ (bs[i]? = some 10 ∧ (bs.take i).count 10 = 1)))

/-- Position `k` is the first of the stream that holds a CR or the second LF. -/
def spec_firstTerminator (bs : List Byte) (k : Nat) : Prop :=
  spec_isTerminator bs k ∧ ∀ j < k, ¬ spec_isTerminator bs j

instance (bs : List Byte) (k : Nat) : Decidable (spec_firstTerminator bs k) :=
  inferInstanceAs (Decidable (spec_isTerminator bs k ∧ ∀ j < k, ¬ spec_isTerminator bs j))

/-- The frame of a stream whose terminator stands at `k`: the first 1024 of the
bytes before `k`, line feeds removed. -/
def spec_frame (bs : List Byte) (k : Nat) : List Byte :=
  ((bs.take k).filter (fun b => b ≠ 10)).take 1024

/-! ## List facts -/

theorem take_take_append {α : Type} (n : Nat) (a b : List α) :
    (a.take n ++ b).take n = (a ++ b).take n := by
  rcases Nat.lt_or_ge n a.length with h | h
  · have h1 : (a.take n).length = n := by simp [List.length_take]; omega
    rw [List.take_append_eq_append_take, List.take_append_eq_append_take, h1]
    have h2 : n - a.length = 0 := by omega
    simp [h2]
  · rw [List.take_of_length_le h]

theorem set_length_append {α : Type} (acc : List α) (x c : α) (tl : List α) :
    (acc ++ x :: tl).set acc.length c = acc ++ c :: tl := by
  induction acc with
  | nil => rfl
  | cons a acc ih => simp [ih]

theorem takeWhile_append_stop {α : Type} (q : α → Bool) (a : List α) (x : α) (tl : List α)
    (hx : q x = false) : (a ++ x :: tl).takeWhile q = a.takeWhile q := by
  induction a with
  | nil => simp [List.takeWhile, hx]
  | cons y a ih =>
    cases hy : q y <;> simp [List.takeWhile, hy, ih]

/-! ## The state after storing bytes -/

theorem initial_eq : initial = stateOf [] 0 := rfl

theorem stateOf_response (acc : List Byte) (se : Nat) : (stateOf acc se).response = acc := by
  simp [State.response, stateOf]

theorem stateOf_store (acc : List Byte) (se : Nat) (c : Byte) (h : acc.length < BUFFER_SIZE) :
    ({ stateOf acc se with buffer := (stateOf acc se).buffer.set (stateOf acc se).buffer_idx c,
                            buffer_idx := (stateOf acc se).buffer_idx + 1 } : State)
      = stateOf (acc ++ [c]) se := by
  have h1 : BUFFER_SIZE - acc.length = (BUFFER_SIZE - (acc.length + 1)) + 1 := by omega
  simp only [stateOf, h1, List.replicate_succ, set_length_append]
  simp

/-! ## One pass on a delivered byte -/

theorem step_ordinary (w : Nat) (s : Timespec) (t : Nat) (acc : List Byte) (se : Nat) (p : Poll)
    (hp : p.delivers) (hc : ordinary p.c) (hacc : acc.length ≤ BUFFER_SIZE) :
    step w s t (stateOf acc se) p = .next (stateOf ((acc ++ [p.c]).take BUFFER_SIZE) se) := by
  obtain ⟨h1, h2, h3⟩ := hp
  obtain ⟨c1, c2⟩ := hc
  have h4 : ¬ p.rr < 0 := by omega
  have h5 : ¬ p.rr = 0 := by omega
  rcases Nat.lt_or_ge acc.length BUFFER_SIZE with hlt | hge
  · have h6 : ¬ (stateOf acc se).buffer_idx ≥ BUFFER_SIZE := by simp [stateOf]; omega
    have h7 : (acc ++ [p.c]).take BUFFER_SIZE = acc ++ [p.c] := by
      apply List.take_of_length_le; simp; omega
    simp only [step, h1, h2, h4, h5, c1, c2, h6, if_false, ne_eq, not_false_eq_true, if_true]
    rw [stateOf_store acc se p.c hlt, h7]
  · have h6 : (stateOf acc se).buffer_idx ≥ BUFFER_SIZE := by simp [stateOf]; omega
    have h7 : (acc ++ [p.c]).take BUFFER_SIZE = acc := by
      rw [List.take_append_of_le_length (by omega)]
      exact List.take_of_length_le (by omega)
    simp only [step, h1, h2, h4, h5, c1, c2, h6, if_false, ne_eq, not_false_eq_true, if_true]
    rw [h7]

theorem step_lf (w : Nat) (s : Timespec) (t : Nat) (st : State) (p : Poll)
    (hp : p.delivers) (hc : p.c = 10) :
    step w s t st p =
      if st.state_end = 1 then .stop (.done st)
      else .next { st with state_end := st.state_end + 1 } := by
  obtain ⟨h1, h2, h3⟩ := hp
  have h4 : ¬ p.rr < 0 := by omega
  have h5 : ¬ p.rr = 0 := by omega
  simp only [step, h1, h2, h4, h5, hc, if_false, ne_eq, not_false_eq_true, if_true]

theorem step_cr (w : Nat) (s : Timespec) (t : Nat) (st : State) (p : Poll)
    (hp : p.delivers) (hc : p.c = 13) :
    step w s t st p = .stop (.done st) := by
  obtain ⟨h1, h2, h3⟩ := hp
  have h4 : ¬ p.rr < 0 := by omega
  have h5 : ¬ p.rr = 0 := by omega
  have h6 : ¬ ((13 : Byte) = 10) := by decide
  simp only [step, h1, h2, h4, h5, hc, h6, if_false, ne_eq, not_false_eq_true, if_true]

/-! ## The loop on a run of delivered bytes -/

theorem loop_cons_next (w : Nat) (s : Timespec) (t : Nat) (st st1 : State) (p : Poll)
    (ps : List Poll) (h : step w s t st p = .next st1) :
    loop w s t st (p :: ps) = loop w s t st1 ps := by
  simp [loop, h]

theorem loop_cons_stop (w : Nat) (s : Timespec) (t : Nat) (st : State) (x : Stop) (p : Poll)
    (ps : List Poll) (h : step w s t st p = .stop x) :
    loop w s t st (p :: ps) = (.stopped x, ps) := by
  simp [loop, h]

theorem loop_append_polling (w : Nat) (s : Timespec) (t : Nat) (ps rest : List Poll) :
    ∀ (st st1 : State), loop w s t st ps = (.polling st1, []) →
      loop w s t st (ps ++ rest) = loop w s t st1 rest := by
  induction ps with
  | nil =>
    intro st st1 h
    simp [loop] at h
    simp [h]
  | cons p ps ih =>
    intro st st1 h
    cases hs : step w s t st p with
    | next st2 =>
      rw [loop_cons_next w s t st st2 p ps hs] at h
      rw [List.cons_append, loop_cons_next w s t st st2 p _ hs]
      exact ih st2 st1 h
    | stop x =>
      rw [loop_cons_stop w s t st x p ps hs] at h
      simp at h

/-- The bytes before the terminator: a run of delivered bytes holding no CR and,
together with the line feeds already counted, at most one LF is consumed whole;
the bytes other than LF are stored while there is room. -/
theorem loop_frame (w : Nat) (s : Timespec) (t : Nat) (rest : List Poll) (ps : List Poll) :
    ∀ (acc : List Byte) (se : Nat),
      (∀ p ∈ ps, p.delivers) → (∀ p ∈ ps, p.c ≠ 13) →
      se + (ps.map Poll.c).count 10 ≤ 1 → acc.length ≤ BUFFER_SIZE →
      loop w s t (stateOf acc se) (ps ++ rest)
        = loop w s t (stateOf ((acc ++ (ps.map Poll.c).filter (fun b => b ≠ 10)).take BUFFER_SIZE)
            (se + (ps.map Poll.c).count 10)) rest := by
  induction ps with
  | nil =>
    intro acc se _ _ _ hacc
    simp [List.take_of_length_le hacc]
  | cons p ps ih =>
    intro acc se hd hcr hcount hacc
    have hpd : p.delivers := hd p (List.mem_cons_self _ _)
    have hd1 : ∀ q ∈ ps, q.delivers := fun q hq => hd q (List.mem_cons_of_mem _ hq)
    have hcr1 : ∀ q ∈ ps, q.c ≠ 13 := fun q hq => hcr q (List.mem_cons_of_mem _ hq)
    have hp13 : p.c ≠ 13 := hcr p (List.mem_cons_self _ _)
    by_cases h10 : p.c = 10
    · have hc1 : (List.map Poll.c (p :: ps)).count 10 = (ps.map Poll.c).count 10 + 1 := by
        simp [h10]
      rw [hc1] at hcount ⊢
      have hse : se = 0 := by omega
      subst hse
      have hstep : step w s t (stateOf acc 0) p = .next (stateOf acc 1) := by
        rw [step_lf w s t _ p hpd h10]; rfl
      rw [List.cons_append, loop_cons_next w s t _ _ p _ hstep,
        ih acc 1 hd1 hcr1 (by omega) hacc]
      have hf : (List.map Poll.c (p :: ps)).filter (fun b => b ≠ 10)
          = (ps.map Poll.c).filter (fun b => b ≠ 10) := by
        simp [h10]
      rw [hf]
      have : 1 + (ps.map Poll.c).count 10 = 0 + ((ps.map Poll.c).count 10 + 1) := by omega
      rw [this]
    · have hc1 : (List.map Poll.c (p :: ps)).count 10 = (ps.map Poll.c).count 10 := by
        simp [List.count_cons, h10]
      rw [hc1] at hcount ⊢
      have hstep := step_ordinary w s t acc se p hpd ⟨h10, hp13⟩ hacc
      have hlen : ((acc ++ [p.c]).take BUFFER_SIZE).length ≤ BUFFER_SIZE := by
        simp [List.length_take]
      rw [List.cons_append, loop_cons_next w s t _ _ p _ hstep,
        ih _ se hd1 hcr1 hcount hlen, take_take_append]
      have hf : (List.map Poll.c (p :: ps)).filter (fun b => b ≠ 10)
          = p.c :: (ps.map Poll.c).filter (fun b => b ≠ 10) := by
        simp [h10]
      rw [hf]
      simp

theorem ordinary_count (l : List Byte) (h : ∀ b ∈ l, ordinary b) : l.count 10 = 0 := by
  rw [List.count_eq_zero]
  intro hm
  exact (h 10 hm).1 rfl

theorem ordinary_filter (l : List Byte) (h : ∀ b ∈ l, ordinary b) :
    l.filter (fun b => b ≠ 10) = l := by
  rw [List.filter_eq_self]
  intro b hb
  simpa using (h b hb).1

theorem ordinary_no_cr (ps : List Poll) (h : ∀ b ∈ ps.map Poll.c, ordinary b) :
    ∀ p ∈ ps, p.c ≠ 13 :=
  fun p hp => (h p.c (List.mem_map_of_mem _ hp)).2

/-- A run of delivered ordinary bytes from the initial state is consumed whole and
stored, up to the size of the array. -/
theorem loop_ordinary (w : Nat) (s : Timespec) (t : Nat) (ps rest : List Poll)
    (hd : ∀ p ∈ ps, p.delivers) (hord : ∀ b ∈ ps.map Poll.c, ordinary b) :
    loop w s t initial (ps ++ rest)
      = loop w s t (stateOf ((ps.map Poll.c).take BUFFER_SIZE) 0) rest := by
  rw [initial_eq, loop_frame w s t rest ps [] 0 hd (ordinary_no_cr ps hord)
    (by rw [ordinary_count _ hord]; omega) (by simp)]
  rw [ordinary_count _ hord, ordinary_filter _ hord]
  simp

/-- A run of delivered ordinary bytes followed by a delivered CR, or by two
delivered LF, ends the loop with the bytes stored and the rest not consumed. -/
theorem loop_delimited (w : Nat) (s : Timespec) (t : Nat) (ps term rest : List Poll)
    (hd : ∀ p ∈ ps, p.delivers) (hord : ∀ b ∈ ps.map Poll.c, ordinary b)
    (htd : ∀ p ∈ term, p.delivers)
    (hterm : term.map Poll.c = [CR] ∨ term.map Poll.c = [LF, LF]) :
    loop w s t initial (ps ++ term ++ rest)
      = (.stopped (.done (stateOf ((ps.map Poll.c).take BUFFER_SIZE) (term.length - 1))), rest) := by
  rw [List.append_assoc, loop_ordinary w s t ps _ hd hord]
  rcases hterm with h | h
  · rcases term with _ | ⟨pt, _ | ⟨q, tl⟩⟩
    · simp at h
    · have hc : pt.c = 13 := by simpa [CR] using h
      have hp : pt.delivers := htd pt (List.mem_cons_self _ _)
      rw [List.singleton_append, loop_cons_stop w s t _ _ pt rest (step_cr w s t _ pt hp hc)]
      rfl
    · simp at h
  · rcases term with _ | ⟨p1, _ | ⟨p2, _ | ⟨q, tl⟩⟩⟩
    · simp at h
    · simp at h
    · have hc : p1.c = 10 ∧ p2.c = 10 := by simpa [LF] using h
      have hp1 : p1.delivers := htd p1 (List.mem_cons_self _ _)
      have hp2 : p2.delivers := htd p2 (List.mem_cons_of_mem _ (List.mem_cons_self _ _))
      have hs1 : step w s t (stateOf ((ps.map Poll.c).take BUFFER_SIZE) 0) p1
          = .next (stateOf ((ps.map Poll.c).take BUFFER_SIZE) 1) := by
        rw [step_lf w s t _ p1 hp1 hc.1]; rfl
      have hs2 : step w s t (stateOf ((ps.map Poll.c).take BUFFER_SIZE) 1) p2
          = .stop (.done (stateOf ((ps.map Poll.c).take BUFFER_SIZE) 1)) := by
        rw [step_lf w s t _ p2 hp2 hc.2]; rfl
      show loop w s t _ (p1 :: p2 :: rest) = _
      rw [loop_cons_next w s t _ _ p1 _ hs1, loop_cons_stop w s t _ _ p2 rest hs2]
      rfl
    · simp at h

/-- The output of `printf("%s", buffer)` when fewer bytes than the array holds
were stored: the stored bytes before the first NUL among them. -/
theorem printf_s_stateOf (acc : List Byte) (se : Nat) (h : acc.length < BUFFER_SIZE) :
    printf_s (stateOf acc se).buffer = some (acc.takeWhile (fun b => b ≠ 0)) := by
  have h1 : BUFFER_SIZE - acc.length = (BUFFER_SIZE - (acc.length + 1)) + 1 := by omega
  have h2 : (stateOf acc se).buffer
      = acc ++ 0 :: List.replicate (BUFFER_SIZE - (acc.length + 1)) 0 := by
    simp only [stateOf]; rw [h1, List.replicate_succ]
  rw [h2]
  unfold printf_s
  rw [if_pos (by simp), takeWhile_append_stop _ acc 0 _ (by simp)]

/-- The program on a delimited frame of fewer than 1024 ordinary bytes: exit
status 0 and, on standard output, the payload up to its first NUL. -/
theorem receive_delimited (w : Nat) (s : Timespec) (t : Nat) (ps term rest : List Poll)
    (hlen : ps.length < BUFFER_SIZE)
    (hd : ∀ p ∈ ps, p.delivers) (hord : ∀ b ∈ ps.map Poll.c, ordinary b)
    (htd : ∀ p ∈ term, p.delivers)
    (hterm : term.map Poll.c = [CR] ∨ term.map Poll.c = [LF, LF]) :
    receive w (some s) t (ps ++ term ++ rest)
      = some { stdout := (ps.map Poll.c).takeWhile (fun b => b ≠ 0), status := 0 } := by
  have hl : (ps.map Poll.c).length ≤ BUFFER_SIZE := by simp; omega
  have hl2 : (ps.map Poll.c).length < BUFFER_SIZE := by simp; omega
  simp only [receive, loop_delimited w s t ps term rest hd hord htd hterm, finish,
    List.take_of_length_le hl, printf_s_stateOf _ _ hl2, Option.map_some']

/-! ## The clock -/

theorem fitsLong_of_range (w : Nat) (x hi : Int) (h0 : 0 ≤ x) (h1 : x ≤ hi)
    (h2 : hi < 2 ^ (w - 1)) : fitsLong w x = true := by
  have hP : (0 : Int) < 2 ^ (w - 1) := by positivity
  simp only [fitsLong, Bool.and_eq_true, decide_eq_true_eq]
  generalize (2 : Int) ^ (w - 1) = P at *
  constructor <;> omega

/-- The value of `delta` for well-formed readings in the range of `long`: the
difference of the two readings, each cut to whole milliseconds. -/
theorem delta_eq (w : Nat) (s c : Timespec)
    (hs : 0 ≤ s.tv_sec) (hs1 : 0 ≤ s.tv_nsec) (hs2 : s.tv_nsec < 1000000000)
    (hc1 : 0 ≤ c.tv_nsec) (hc2 : c.tv_nsec < 1000000000)
    (hle : 0 ≤ spec_elapsed_ns s c)
    (hfit : c.tv_sec * 1000 + 999 < 2 ^ (w - 1)) :
    delta w s c
      = some ((c.tv_sec * 1000 + c.tv_nsec / 1000000) - (s.tv_sec * 1000 + s.tv_nsec / 1000000)) := by
  have e1 : c.tv_nsec.tdiv 1000000 = c.tv_nsec / 1000000 := Int.tdiv_eq_ediv hc1 (by norm_num)
  have e2 : s.tv_nsec.tdiv 1000000 = s.tv_nsec / 1000000 := Int.tdiv_eq_ediv hs1 (by norm_num)
  unfold spec_elapsed_ns at hle
  have hcs : 0 ≤ c.tv_sec := by omega
  have f1 : fitsLong w (c.tv_sec * 1000) = true :=
    fitsLong_of_range w _ _ (by omega) (by omega) hfit
  have f2 : fitsLong w (c.tv_sec * 1000 + c.tv_nsec / 1000000) = true :=
    fitsLong_of_range w _ _ (by omega) (by omega) hfit
  have f3 : fitsLong w (s.tv_sec * 1000) = true :=
    fitsLong_of_range w _ _ (by omega) (by omega) hfit
  have f4 : fitsLong w (s.tv_sec * 1000 + s.tv_nsec / 1000000) = true :=
    fitsLong_of_range w _ _ (by omega) (by omega) hfit
  have f5 : fitsLong w ((c.tv_sec * 1000 + c.tv_nsec / 1000000)
      - (s.tv_sec * 1000 + s.tv_nsec / 1000000)) = true :=
    fitsLong_of_range w _ _ (by omega) (by omega) hfit
  simp [delta, millis, e1, e2, f1, f2, f3, f4, f5]

theorem step_idle (w : Nat) (s c : Timespec) (t : Nat) (st : State) (p : Poll) (d : Int)
    (hr : p.r = 0) (hclk : p.clock = some c) (hd : delta w s c = some d) :
    step w s t st p = if d ≥ (t : Int) then .stop .timedOut else .next st := by
  simp [step, hr, hclk, hd]

/-! ## A line feed, an ordinary byte, a line feed -/

theorem loop_lf_byte (w : Nat) (s : Timespec) (t : Nat) (ps : List Poll) (l1 px : Poll)
    (rest : List Poll)
    (hd : ∀ p ∈ ps, p.delivers) (hord : ∀ b ∈ ps.map Poll.c, ordinary b)
    (hl1 : l1.delivers) (hc1 : l1.c = LF) (hpx : px.delivers) (hx : ordinary px.c) :
    loop w s t initial (ps ++ l1 :: px :: rest)
      = loop w s t (stateOf ((ps.map Poll.c ++ [px.c]).take BUFFER_SIZE) 1) rest := by
  have hs1 : step w s t (stateOf ((ps.map Poll.c).take BUFFER_SIZE) 0) l1
      = .next (stateOf ((ps.map Poll.c).take BUFFER_SIZE) 1) := by
    rw [step_lf w s t _ l1 hl1 hc1]; rfl
  have hs2 := step_ordinary w s t ((ps.map Poll.c).take BUFFER_SIZE) 1 px hpx hx
    (by simp [List.length_take])
  rw [loop_ordinary w s t ps _ hd hord, loop_cons_next w s t _ _ l1 _ hs1,
    loop_cons_next w s t _ _ px _ hs2, take_take_append]

theorem loop_lf_byte_lf (w : Nat) (s : Timespec) (t : Nat) (ps : List Poll) (l1 px l2 : Poll)
    (rest : List Poll)
    (hd : ∀ p ∈ ps, p.delivers) (hord : ∀ b ∈ ps.map Poll.c, ordinary b)
    (hl1 : l1.delivers) (hc1 : l1.c = LF) (hpx : px.delivers) (hx : ordinary px.c)
    (hl2 : l2.delivers) (hc2 : l2.c = LF) :
    loop w s t initial (ps ++ l1 :: px :: l2 :: rest)
      = (.stopped (.done (stateOf ((ps.map Poll.c ++ [px.c]).take BUFFER_SIZE) 1)), rest) := by
  have hs3 : step w s t (stateOf ((ps.map Poll.c ++ [px.c]).take BUFFER_SIZE) 1) l2
      = .stop (.done (stateOf ((ps.map Poll.c ++ [px.c]).take BUFFER_SIZE) 1)) := by
    rw [step_lf w s t _ l2 hl2 hc2]; rfl
  rw [loop_lf_byte w s t ps l1 px _ hd hord hl1 hc1 hpx hx,
    loop_cons_stop w s t _ _ l2 rest hs3]

/-! ## The first terminator of a stream -/

/-- Before the first position that holds a CR or the second LF, the stream holds
no CR and at most one LF. -/
theorem no_terminator_before (bs : List Byte) (j : Nat)
    (h : ∀ i < j, ¬ spec_isTerminator bs i) :
    (∀ b ∈ bs.take j, b ≠ 13) ∧ (bs.take j).count 10 ≤ 1 := by
  induction j with
  | zero => simp
  | succ j ih =>
    obtain ⟨ih1, ih2⟩ := ih (fun i hi => h i (Nat.lt_succ_of_lt hi))
    have hj := h j (Nat.lt_succ_self j)
    rw [List.take_succ]
    cases hb : bs[j]? with
    | none => simpa using ⟨ih1, ih2⟩
    | some b =>
      simp only [spec_isTerminator, hb, Option.some.injEq, not_or, not_and] at hj
      obtain ⟨hj1, hj2⟩ := hj
      constructor
      · intro x hx
        simp only [Option.toList, List.mem_append, List.mem_singleton] at hx
        rcases hx with hx | hx
        · exact ih1 x hx
        · rw [hx]; exact hj1
      · simp only [Option.toList, List.count_append, List.count_singleton]
        by_cases hb10 : b = 10
        · have := hj2 hb10
          simp only [hb10, beq_self_eq_true, if_true]
          omega
        · have : (b == 10) = false := by simpa using hb10
          simp only [this]
          simpa using ih2

/-- A run of delivered bytes with no CR and at most one LF is consumed whole and
leaves the loop polling. -/
theorem loop_polling_of_no_terminator (w : Nat) (s : Timespec) (t : Nat) (ps : List Poll)
    (hd : ∀ p ∈ ps, p.delivers) (hcr : ∀ p ∈ ps, p.c ≠ 13)
    (hcount : (ps.map Poll.c).count 10 ≤ 1) :
    loop w s t initial ps
      = (.polling (stateOf (((ps.map Poll.c).filter (fun b => b ≠ 10)).take BUFFER_SIZE)
          ((ps.map Poll.c).count 10)), []) := by
  have h := loop_frame w s t [] ps [] 0 hd hcr (by omega) (by simp)
  rw [List.append_nil, ← initial_eq] at h
  rw [h]
  simp [loop]

/-- The loop on a stream of delivered bytes whose first terminator stands at `k`. -/
theorem loop_first_terminator (w : Nat) (s : Timespec) (t : Nat) (ps : List Poll) (k : Nat)
    (hd : ∀ p ∈ ps, p.delivers) (hk : spec_firstTerminator (ps.map Poll.c) k) :
    loop w s t initial ps
      = (.stopped (.done (stateOf (spec_frame (ps.map Poll.c) k)
          (((ps.map Poll.c).take k).count 10))), ps.drop (k + 1)) := by
  obtain ⟨hterm, hbefore⟩ := hk
  obtain ⟨hcr, hcount⟩ := no_terminator_before _ k hbefore
  have hklt : k < ps.length := by
    rcases hterm with h | ⟨h, _⟩ <;>
      · have := (List.getElem?_eq_some_iff.1 h).1
        simpa using this
  have hsplit : ps = ps.take k ++ ps[k] :: ps.drop (k + 1) := by
    rw [← List.drop_eq_getElem_cons hklt, List.take_append_drop]
  have hpk : ps[k].delivers := hd _ (List.getElem_mem _)
  have hd1 : ∀ p ∈ ps.take k, p.delivers := fun p hp => hd p (List.mem_of_mem_take hp)
  have hmap : (ps.take k).map Poll.c = (ps.map Poll.c).take k := List.map_take _ _ _
  have hcr1 : ∀ p ∈ ps.take k, p.c ≠ 13 := by
    intro p hp
    apply hcr
    rw [← hmap]
    exact List.mem_map_of_mem _ hp
  have hbk : (ps.map Poll.c)[k]? = some ps[k].c := by
    rw [List.getElem?_map, List.getElem?_eq_getElem hklt]; rfl
  have hframe := loop_frame w s t (ps[k] :: ps.drop (k + 1)) (ps.take k) [] 0 hd1 hcr1
    (by rw [hmap]; omega) (by simp)
  rw [← hsplit, ← initial_eq, hmap] at hframe
  rw [hframe]
  simp only [List.nil_append, Nat.zero_add]
  rcases hterm with h | ⟨h, hc⟩
  · rw [hbk, Option.some.injEq] at h
    rw [loop_cons_stop w s t _ _ ps[k] _ (step_cr w s t _ _ hpk h)]
    rfl
  · rw [hbk, Option.some.injEq] at h
    have hs : step w s t (stateOf (((ps.map Poll.c).take k).filter (fun b => b ≠ 10) |>.take
        BUFFER_SIZE) (((ps.map Poll.c).take k).count 10)) ps[k]
        = .stop (.done (stateOf (((ps.map Poll.c).take k).filter (fun b => b ≠ 10) |>.take
            BUFFER_SIZE) (((ps.map Poll.c).take k).count 10))) := by
      rw [step_lf w s t _ _ hpk h, hc]; rfl
    rw [loop_cons_stop w s t _ _ ps[k] _ hs]
    rfl

/-! ## The passes that leave the loop -/

/-- The events that fail the exchange, read off the system calls: `select`
returns `-1`; the descriptor is readable and `read` returns a negative count; it
is readable and `read` returns `0`; nothing is readable and `delta` has reached
the timeout.  Each one stops the loop, and not in Done. -/
theorem step_of_failure (w : Nat) (s : Timespec) (t : Nat) (st : State) (p : Poll)
    (h : p.r = -1 ∨ (p.r ≠ -1 ∧ p.r ≠ 0 ∧ p.rr < 0) ∨ (p.r ≠ -1 ∧ p.r ≠ 0 ∧ p.rr = 0)
      ∨ (p.r = 0 ∧ ∃ c d, p.clock = some c ∧ delta w s c = some d ∧ (t : Int) ≤ d)) :
    (p.r = -1 ∧ step w s t st p = .stop .pollFailed)
      ∨ (p.r ≠ -1 ∧ p.r ≠ 0 ∧ p.rr < 0 ∧ step w s t st p = .stop .readFailed)
      ∨ (p.r ≠ -1 ∧ p.r ≠ 0 ∧ p.rr = 0 ∧ step w s t st p = .stop .endOfFile)
      ∨ (p.r = 0 ∧ step w s t st p = .stop .timedOut) := by
  rcases h with h | ⟨h1, h2, h3⟩ | ⟨h1, h2, h3⟩ | ⟨h1, c, d, hc, hd, htd⟩
  · exact Or.inl ⟨h, by simp [step, h]⟩
  · exact Or.inr (Or.inl ⟨h1, h2, h3, by simp [step, h1, h2, h3]⟩)
  · exact Or.inr (Or.inr (Or.inl ⟨h1, h2, h3, by simp [step, h1, h2, h3]⟩))
  · refine Or.inr (Or.inr (Or.inr ⟨h1, ?_⟩))
    rw [step_idle w s c t st p d h1 hc hd, if_pos htd]

/-- The only passes that leave the loop in Done deliver a CR, or an LF when one
LF has been counted; the state is the one the pass found. -/
theorem step_done_inv (w : Nat) (s : Timespec) (t : Nat) (st st1 : State) (p : Poll)
    (h : step w s t st p = .stop (.done st1)) :
    st1 = st ∧ p.delivers ∧ (p.c = 13 ∨ (p.c = 10 ∧ st.state_end = 1)) := by
  unfold step at h
  by_cases h1 : p.r = -1
  · simp [h1] at h
  · by_cases h2 : p.r = 0
    · simp only [h2] at h
      cases hc : p.clock with
      | none => simp [hc] at h
      | some c =>
        cases hd : delta w s c with
        | none => simp [hc, hd] at h
        | some d =>
          simp only [hc, hd] at h
          by_cases htd : d ≥ (t : Int)
          · simp [htd] at h
          · simp [htd] at h
    · by_cases h3 : p.rr < 0
      · simp [h1, h2, h3] at h
      · by_cases h4 : p.rr = 0
        · simp [h1, h2, h4] at h
        · have hdel : p.delivers := ⟨h1, h2, by omega⟩
          by_cases h5 : p.c = 10
          · by_cases h6 : st.state_end = 1
            · simp [h1, h2, h3, h4, h5, h6] at h
              exact ⟨h.symm, hdel, Or.inr ⟨h5, h6⟩⟩
            · simp [h1, h2, h3, h4, h5, h6] at h
          · by_cases h7 : p.c = 13
            · simp [h1, h2, h3, h4, h7] at h
              exact ⟨h.symm, hdel, Or.inl h7⟩
            · by_cases h8 : st.buffer_idx ≥ BUFFER_SIZE
              · simp [h1, h2, h3, h4, h5, h7, h8] at h
              · simp [h1, h2, h3, h4, h5, h7, h8] at h

/-- A loop that has stopped did so on one pass, after a run of passes that left it
polling; the passes after that one are those it did not consume. -/
theorem loop_stopped_split (w : Nat) (s : Timespec) (t : Nat) (polls : List Poll) :
    ∀ (st : State) (x : Stop) (rest : List Poll),
      loop w s t st polls = (.stopped x, rest) →
      ∃ qs pt st1, polls = qs ++ pt :: rest ∧ loop w s t st qs = (.polling st1, [])
        ∧ step w s t st1 pt = .stop x := by
  induction polls with
  | nil =>
    intro st x rest h
    simp [loop] at h
  | cons p ps ih =>
    intro st x rest h
    cases hs : step w s t st p with
    | next st2 =>
      rw [loop_cons_next w s t st st2 p ps hs] at h
      obtain ⟨qs, pt, st1, h1, h2, h3⟩ := ih st2 x rest h
      refine ⟨p :: qs, pt, st1, by rw [h1]; rfl, ?_, h3⟩
      rw [loop_cons_next w s t st st2 p qs hs]
      exact h2
    | stop y =>
      rw [loop_cons_stop w s t st y p ps hs] at h
      simp only [Prod.mk.injEq, Outcome.stopped.injEq] at h
      obtain ⟨hy, hps⟩ := h
      subst hy hps
      exact ⟨[], p, st, rfl, rfl, hs⟩

/-! ## The claims -/

/-- C1: a payload of at most 1024 ordinary bytes followed by a single CR, every
pass delivering a byte, ends the loop in Done with the stored bytes equal to the
payload; the CR is not stored and nothing after it is consumed. -/
theorem C1_payload_cr (w : Nat) (s : Timespec) (t : Nat) (payload : List Byte)
    (ps : List Poll) (pt : Poll) (rest : List Poll)
    (hlen : payload.length ≤ BUFFER_SIZE) (hord : ∀ b ∈ payload, ordinary b)
    (hd : ∀ p ∈ ps, p.delivers) (hbytes : ps.map Poll.c = payload)
    (hpt : pt.delivers) (hcr : pt.c = CR) :
    loop w s t initial (ps ++ pt :: rest) = (.stopped (.done (stateOf payload 0)), rest)
      ∧ (stateOf payload 0).response = payload := by
  subst hbytes
  have h := loop_delimited w s t ps [pt] rest hd hord
    (by intro p hp; rw [List.mem_singleton] at hp; exact hp ▸ hpt) (Or.inl (by simp [hcr]))
  rw [List.take_of_length_le hlen] at h
  refine ⟨?_, stateOf_response _ _⟩
  simpa using h

/-- C1 at the payload "12.5" followed by CR. -/
theorem C1_payload_cr_witness :
    loop 64 ⟨0, 0⟩ 100 initial
        ([bytePoll 0x31 none, bytePoll 0x32 none, bytePoll 0x2e none, bytePoll 0x35 none]
          ++ bytePoll CR none :: [])
      = (.stopped (.done (stateOf [0x31, 0x32, 0x2e, 0x35] 0)), [])
      ∧ (stateOf [0x31, 0x32, 0x2e, 0x35] 0).response = [0x31, 0x32, 0x2e, 0x35] :=
  C1_payload_cr 64 ⟨0, 0⟩ 100 [0x31, 0x32, 0x2e, 0x35]
    [bytePoll 0x31 none, bytePoll 0x32 none, bytePoll 0x2e none, bytePoll 0x35 none]
    (bytePoll CR none) [] (by simp [BUFFER_SIZE]) (by simp [ordinary]) (by decide) (by decide)
    (by decide) rfl

/-- C2: a payload of at most 1024 ordinary bytes followed by LF, LF ends the loop
in Done with the stored bytes equal to the payload; neither LF is stored. -/
theorem C2_payload_lf_lf (w : Nat) (s : Timespec) (t : Nat) (payload : List Byte)
    (ps : List Poll) (p1 p2 : Poll) (rest : List Poll)
    (hlen : payload.length ≤ BUFFER_SIZE) (hord : ∀ b ∈ payload, ordinary b)
    (hd : ∀ p ∈ ps, p.delivers) (hbytes : ps.map Poll.c = payload)
    (hp1 : p1.delivers) (hc1 : p1.c = LF) (hp2 : p2.delivers) (hc2 : p2.c = LF) :
    loop w s t initial (ps ++ p1 :: p2 :: rest) = (.stopped (.done (stateOf payload 1)), rest)
      ∧ (stateOf payload 1).response = payload := by
  subst hbytes
  have h := loop_delimited w s t ps [p1, p2] rest hd hord
    (by
      intro p hp
      simp only [List.mem_cons, List.mem_singleton, List.not_mem_nil, or_false] at hp
      rcases hp with hp | hp
      · exact hp ▸ hp1
      · exact hp ▸ hp2)
    (Or.inr (by simp [hc1, hc2]))
  rw [List.take_of_length_le hlen] at h
  refine ⟨?_, stateOf_response _ _⟩
  simpa using h

/-- C2 at the payload "12.5" followed by LF, LF. -/
theorem C2_payload_lf_lf_witness :
    loop 64 ⟨0, 0⟩ 100 initial
        ([bytePoll 0x31 none, bytePoll 0x32 none, bytePoll 0x2e none, bytePoll 0x35 none]
          ++ bytePoll LF none :: bytePoll LF none :: [])
      = (.stopped (.done (stateOf [0x31, 0x32, 0x2e, 0x35] 1)), [])
      ∧ (stateOf [0x31, 0x32, 0x2e, 0x35] 1).response = [0x31, 0x32, 0x2e, 0x35] :=
  C2_payload_lf_lf 64 ⟨0, 0⟩ 100 [0x31, 0x32, 0x2e, 0x35]
    [bytePoll 0x31 none, bytePoll 0x32 none, bytePoll 0x2e none, bytePoll 0x35 none]
    (bytePoll LF none) (bytePoll LF none) [] (by simp [BUFFER_SIZE]) (by simp [ordinary])
    (by decide) (by decide) (by decide) rfl (by decide) rfl

/-- C4: more than 1024 ordinary bytes followed by a terminator (CR, or LF LF)
end the loop in Done, not in a failure; the array holds the first 1024 payload
bytes in order, the excess is dropped, and the terminator is recognised with the
array full. -/
theorem C4_overflow_truncates (w : Nat) (s : Timespec) (t : Nat) (payload : List Byte)
    (ps term rest : List Poll)
    (hlen : BUFFER_SIZE < payload.length) (hord : ∀ b ∈ payload, ordinary b)
    (hd : ∀ p ∈ ps, p.delivers) (hbytes : ps.map Poll.c = payload)
    (htd : ∀ p ∈ term, p.delivers)
    (hterm : term.map Poll.c = [CR] ∨ term.map Poll.c = [LF, LF]) :
    loop w s t initial (ps ++ term ++ rest)
        = (.stopped (.done (stateOf (payload.take BUFFER_SIZE) (term.length - 1))), rest)
      ∧ (stateOf (payload.take BUFFER_SIZE) (term.length - 1)).response = payload.take 1024
      ∧ (stateOf (payload.take BUFFER_SIZE) (term.length - 1)).buffer = payload.take 1024 := by
  subst hbytes
  refine ⟨loop_delimited w s t ps term rest hd hord htd hterm, stateOf_response _ _, ?_⟩
  have h1 : ((ps.map Poll.c).take BUFFER_SIZE).length = BUFFER_SIZE := by
    rw [List.length_take]; omega
  simp only [stateOf, h1, Nat.sub_self, List.replicate_zero, List.append_nil]
  rfl

/-- C4 at 1025 bytes 'A' followed by CR. -/
theorem C4_overflow_truncates_witness :
    loop 64 ⟨0, 0⟩ 100 initial
        (List.replicate 1025 (bytePoll 0x41 none) ++ [bytePoll CR none] ++ [])
        = (.stopped (.done (stateOf ((List.replicate 1025 (0x41 : Byte)).take BUFFER_SIZE)
            ([bytePoll CR none].length - 1))), [])
      ∧ (stateOf ((List.replicate 1025 (0x41 : Byte)).take BUFFER_SIZE)
            ([bytePoll CR none].length - 1)).response = (List.replicate 1025 (0x41 : Byte)).take 1024
      ∧ (stateOf ((List.replicate 1025 (0x41 : Byte)).take BUFFER_SIZE)
            ([bytePoll CR none].length - 1)).buffer = (List.replicate 1025 (0x41 : Byte)).take 1024 :=
  C4_overflow_truncates 64 ⟨0, 0⟩ 100 (List.replicate 1025 0x41)
    (List.replicate 1025 (bytePoll 0x41 none)) [bytePoll CR none] []
    (by rw [List.length_replicate]; simp [BUFFER_SIZE])
    (by intro b hb; rw [List.eq_of_mem_replicate hb]; decide)
    (by intro p hp; rw [List.eq_of_mem_replicate hp]; decide)
    (by rw [List.map_replicate]; rfl)
    (by decide) (Or.inl rfl)

/-- C6 (as amended): for a payload of fewer than 1024 ordinary bytes followed by
a terminator, the program exits with status 0 and standard output holds the
payload up to, and not including, its first NUL byte: the whole payload when it
holds no NUL, nothing added. -/
theorem C6_output_until_nul (w : Nat) (s : Timespec) (t : Nat) (payload : List Byte)
    (ps term rest : List Poll)
    (hlen : payload.length < BUFFER_SIZE) (hord : ∀ b ∈ payload, ordinary b)
    (hd : ∀ p ∈ ps, p.delivers) (hbytes : ps.map Poll.c = payload)
    (htd : ∀ p ∈ term, p.delivers)
    (hterm : term.map Poll.c = [CR] ∨ term.map Poll.c = [LF, LF]) :
    receive w (some s) t (ps ++ term ++ rest)
      = some { stdout := payload.takeWhile (fun b => b ≠ 0), status := 0 } := by
  subst hbytes
  exact receive_delimited w s t ps term rest (by simpa using hlen) hd hord htd hterm

/-- C6 at the payload "12.5" followed by CR. -/
theorem C6_output_until_nul_witness :
    receive 64 (some ⟨0, 0⟩) 100
        ([bytePoll 0x31 none, bytePoll 0x32 none, bytePoll 0x2e none, bytePoll 0x35 none]
          ++ [bytePoll CR none] ++ [])
      = some { stdout := ([0x31, 0x32, 0x2e, 0x35] : List Byte).takeWhile (fun b => b ≠ 0),
               status := 0 } :=
  C6_output_until_nul 64 ⟨0, 0⟩ 100 [0x31, 0x32, 0x2e, 0x35]
    [bytePoll 0x31 none, bytePoll 0x32 none, bytePoll 0x2e none, bytePoll 0x35 none]
    [bytePoll CR none] [] (by simp [BUFFER_SIZE]) (by simp [ordinary]) (by decide) (by decide)
    (by decide) (Or.inl rfl)

/-- C6 fails as stated: on the payload 0x31, 0x00, 0x32 followed by CR the
program writes the single byte 0x31, not the three bytes of the payload. -/
theorem C6_counterexample :
    receive 64 (some ⟨0, 0⟩) 100
        [bytePoll 0x31 none, bytePoll 0x00 none, bytePoll 0x32 none, bytePoll CR none]
      = some { stdout := [0x31], status := 0 }
    ∧ receive 64 (some ⟨0, 0⟩) 100
        [bytePoll 0x31 none, bytePoll 0x00 none, bytePoll 0x32 none, bytePoll CR none]
      ≠ some { stdout := [0x31, 0x00, 0x32], status := 0 } := by
  have h := receive_delimited 64 ⟨0, 0⟩ 100
    [bytePoll 0x31 none, bytePoll 0x00 none, bytePoll 0x32 none] [bytePoll CR none] []
    (by simp [BUFFER_SIZE]) (by decide) (by simp [ordinary, bytePoll]) (by decide) (Or.inl rfl)
  have h2 : (List.map Poll.c [bytePoll 0x31 none, bytePoll 0x00 none, bytePoll 0x32 none]).takeWhile
      (fun b => decide (b ≠ 0)) = [0x31] := by decide
  rw [h2] at h
  have h3 : [bytePoll 0x31 none, bytePoll 0x00 none, bytePoll 0x32 none] ++ [bytePoll CR none] ++ []
      = [bytePoll 0x31 none, bytePoll 0x00 none, bytePoll 0x32 none, bytePoll CR none] := rfl
  rw [h3] at h
  rw [h]
  exact ⟨rfl, by decide⟩

/-- C7: the bytes handed to the serial stream are "ACOM /" ++ id ++ "\n" when no
value was supplied and "ACOM /" ++ id ++ " " ++ value ++ "\n" when one was; id
and value are copied as they are, whatever they contain. -/
theorem C7_command_bytes (sensor_id value : List Char) :
    command sensor_id none = "ACOM /".toList ++ sensor_id ++ "\n".toList
      ∧ command sensor_id (some value)
          = "ACOM /".toList ++ sensor_id ++ " ".toList ++ value ++ "\n".toList := by
  constructor
  · simp [command, format_s]
  · simp [command, format_s]

/-- C8: there is no partial success.  After any run of passes that leaves the loop
polling, whatever it has stored, a pass on which `select` returns -1, or `read`
returns a negative count, or `read` returns 0, or nothing is readable and `delta`
has reached the timeout, makes the program write nothing to standard output and
exit with status 4.  And a run that exits with status 0 or writes to standard
output is one where the frame was delimited: a run of passes that left the loop
polling, then a pass that delivered a CR, or an LF with one LF already counted. -/
theorem C8_no_partial_success (w : Nat) (s : Timespec) (t : Nat) (ps : List Poll) (p : Poll)
    (rest : List Poll) (st : State)
    (hrun : loop w s t initial ps = (.polling st, []))
    (hfail : p.r = -1 ∨ (p.r ≠ -1 ∧ p.r ≠ 0 ∧ p.rr < 0) ∨ (p.r ≠ -1 ∧ p.r ≠ 0 ∧ p.rr = 0)
      ∨ (p.r = 0 ∧ ∃ c d, p.clock = some c ∧ delta w s c = some d ∧ (t : Int) ≤ d)) :
    receive w (some s) t (ps ++ p :: rest) = some { stdout := [], status := 4 }
      ∧ ∀ (clock : Option Timespec) (polls : List Poll) (e : Exit),
          receive w clock t polls = some e → (e.status = 0 ∨ e.stdout ≠ []) →
          ∃ s0 qs pt rest1 st1, clock = some s0 ∧ polls = qs ++ pt :: rest1
            ∧ loop w s0 t initial qs = (.polling st1, [])
            ∧ pt.delivers ∧ (pt.c = 13 ∨ (pt.c = 10 ∧ st1.state_end = 1))
            ∧ loop w s0 t initial polls = (.stopped (.done st1), rest1)
            ∧ e.status = 0 := by
  constructor
  · simp only [receive]
    rw [loop_append_polling w s t ps (p :: rest) initial st hrun]
    rcases step_of_failure w s t st p hfail with ⟨_, h⟩ | ⟨_, _, _, h⟩ | ⟨_, _, _, h⟩ | ⟨_, h⟩ <;>
      · rw [loop_cons_stop w s t st _ p rest h]
        rfl
  · intro clock polls e he hout
    cases clock with
    | none =>
      simp only [receive, Option.some.injEq] at he
      subst he
      simp at hout
    | some s0 =>
      simp only [receive] at he
      cases hl : loop w s0 t initial polls with
      | mk o rest1 =>
        rw [hl] at he
        cases o with
        | polling st1 => simp [finish] at he
        | stopped y =>
          cases y with
          | done st2 =>
            obtain ⟨qs, pt, st1, h1, h2, h3⟩ := loop_stopped_split w s0 t polls initial _ rest1 hl
            obtain ⟨h4, h5, h6⟩ := step_done_inv w s0 t st1 st2 pt h3
            subst h4
            refine ⟨s0, qs, pt, rest1, st2, rfl, h1, h2, h5, h6, hl, ?_⟩
            simp only [finish, Option.map_eq_some'] at he
            obtain ⟨out, _, hout2⟩ := he
            rw [← hout2]
          | overflow => simp [finish] at he
          | _ =>
            simp only [finish, Option.some.injEq] at he
            subst he
            simp at hout

/-- C8 at one stored byte followed by an end of file, and at one stored byte
followed by an idle pass 100 s after the start with a timeout of 100 ms. -/
theorem C8_no_partial_success_witness :
    receive 64 (some ⟨0, 0⟩) 100 ([bytePoll 0x31 none] ++ ⟨1, 0, 0, none⟩ :: [])
        = some { stdout := [], status := 4 }
      ∧ receive 64 (some ⟨0, 0⟩) 100 ([bytePoll 0x31 none] ++ idlePoll ⟨100, 0⟩ :: [])
        = some { stdout := [], status := 4 } :=
  ⟨(C8_no_partial_success 64 ⟨0, 0⟩ 100 [bytePoll 0x31 none] ⟨1, 0, 0, none⟩ []
      (stateOf [0x31] 0) (by rfl) (Or.inr (Or.inr (Or.inl (by decide))))).1,
    (C8_no_partial_success 64 ⟨0, 0⟩ 100 [bytePoll 0x31 none] (idlePoll ⟨100, 0⟩) []
      (stateOf [0x31] 0) (by rfl)
      (Or.inr (Or.inr (Or.inr ⟨rfl, ⟨100, 0⟩, 100000, rfl, by decide, by decide⟩)))).1⟩

/-- C3 (as amended): an LF completes the frame when it is the second LF received,
adjacent to the first or not: after payload, LF, X, LF with X an ordinary byte the
loop is Done with the payload and X stored (up to 1024 bytes) and consumes no
further byte.  The first LF does not end the frame: after payload, LF and after
payload, LF, X the loop is still polling. -/
theorem C3_second_lf_completes (w : Nat) (s : Timespec) (t : Nat) (ps : List Poll)
    (l1 px l2 : Poll) (rest : List Poll)
    (hd : ∀ p ∈ ps, p.delivers) (hord : ∀ b ∈ ps.map Poll.c, ordinary b)
    (hl1 : l1.delivers) (hc1 : l1.c = LF) (hpx : px.delivers) (hx : ordinary px.c)
    (hl2 : l2.delivers) (hc2 : l2.c = LF) :
    loop w s t initial (ps ++ l1 :: px :: l2 :: rest)
        = (.stopped (.done (stateOf ((ps.map Poll.c ++ [px.c]).take BUFFER_SIZE) 1)), rest)
      ∧ loop w s t initial (ps ++ l1 :: px :: [])
        = (.polling (stateOf ((ps.map Poll.c ++ [px.c]).take BUFFER_SIZE) 1), [])
      ∧ loop w s t initial (ps ++ l1 :: [])
        = (.polling (stateOf ((ps.map Poll.c).take BUFFER_SIZE) 1), []) := by
  refine ⟨loop_lf_byte_lf w s t ps l1 px l2 rest hd hord hl1 hc1 hpx hx hl2 hc2, ?_, ?_⟩
  · rw [loop_lf_byte w s t ps l1 px [] hd hord hl1 hc1 hpx hx]
    rfl
  · have hs1 : step w s t (stateOf ((ps.map Poll.c).take BUFFER_SIZE) 0) l1
        = .next (stateOf ((ps.map Poll.c).take BUFFER_SIZE) 1) := by
      rw [step_lf w s t _ l1 hl1 hc1]; rfl
    rw [loop_ordinary w s t ps _ hd hord, loop_cons_next w s t _ _ l1 _ hs1]
    rfl

/-- C3 at the stream 0x31, LF, 0x32, LF followed by 0x33. -/
theorem C3_second_lf_completes_witness :
    loop 64 ⟨0, 0⟩ 100 initial
        ([bytePoll 0x31 none] ++ bytePoll LF none :: bytePoll 0x32 none :: bytePoll LF none
          :: [bytePoll 0x33 none])
        = (.stopped (.done (stateOf ((([bytePoll 0x31 none].map Poll.c)
            ++ [(bytePoll 0x32 none).c]).take BUFFER_SIZE) 1)), [bytePoll 0x33 none])
      ∧ loop 64 ⟨0, 0⟩ 100 initial
          ([bytePoll 0x31 none] ++ bytePoll LF none :: bytePoll 0x32 none :: [])
        = (.polling (stateOf ((([bytePoll 0x31 none].map Poll.c)
            ++ [(bytePoll 0x32 none).c]).take BUFFER_SIZE) 1), [])
      ∧ loop 64 ⟨0, 0⟩ 100 initial ([bytePoll 0x31 none] ++ bytePoll LF none :: [])
        = (.polling (stateOf (([bytePoll 0x31 none].map Poll.c).take BUFFER_SIZE) 1), []) :=
  C3_second_lf_completes 64 ⟨0, 0⟩ 100 [bytePoll 0x31 none] (bytePoll LF none)
    (bytePoll 0x32 none) (bytePoll LF none) [bytePoll 0x33 none]
    (by decide) (by simp [ordinary, bytePoll]) (by decide) rfl (by decide) (by decide)
    (by decide) rfl

/-- C3 fails as stated: after 0x31, LF, 0x32, LF the loop is Done, with 0x31, 0x32
stored, and the byte 0x33 that follows is not consumed. -/
theorem C3_counterexample :
    loop 64 ⟨0, 0⟩ 100 initial
        [bytePoll 0x31 none, bytePoll LF none, bytePoll 0x32 none, bytePoll LF none,
          bytePoll 0x33 none]
        = (.stopped (.done (stateOf [0x31, 0x32] 1)), [bytePoll 0x33 none])
      ∧ ¬ ∃ st, loop 64 ⟨0, 0⟩ 100 initial
          [bytePoll 0x31 none, bytePoll LF none, bytePoll 0x32 none, bytePoll LF none]
        = (.polling st, []) := by
  constructor
  · rfl
  · rintro ⟨st, h⟩
    have h2 : loop 64 ⟨0, 0⟩ 100 initial
        [bytePoll 0x31 none, bytePoll LF none, bytePoll 0x32 none, bytePoll LF none]
        = (.stopped (.done (stateOf [0x31, 0x32] 1)), []) := rfl
    rw [h2] at h
    cases h

/-- C5 (as amended): at a pass that finds nothing readable, with well-formed clock
readings s and c in the range of `long`, c not earlier than s, the loop fails with
TimedOut exactly when the difference of the two readings, each cut to whole
milliseconds (`tv_sec * 1000 + tv_nsec / 1000000`), is at least t; otherwise the
state is unchanged and the loop polls again.  It does so whenever the elapsed time
is at least t milliseconds, and only when the elapsed time exceeds t - 1
milliseconds. -/
theorem C5_timeout_whole_milliseconds (w : Nat) (s c : Timespec) (t : Nat) (st : State)
    (p : Poll) (hr : p.r = 0) (hclk : p.clock = some c)
    (hs : 0 ≤ s.tv_sec) (hs1 : 0 ≤ s.tv_nsec) (hs2 : s.tv_nsec < 1000000000)
    (hc1 : 0 ≤ c.tv_nsec) (hc2 : c.tv_nsec < 1000000000)
    (hle : 0 ≤ spec_elapsed_ns s c)
    (hfit : c.tv_sec * 1000 + 999 < 2 ^ (w - 1)) :
    (step w s t st p = .stop .timedOut ↔
        (t : Int) ≤ (c.tv_sec * 1000 + c.tv_nsec / 1000000)
          - (s.tv_sec * 1000 + s.tv_nsec / 1000000))
      ∧ (step w s t st p = .stop .timedOut ∨ step w s t st p = .next st)
      ∧ ((t : Int) * 1000000 ≤ spec_elapsed_ns s c → step w s t st p = .stop .timedOut)
      ∧ (step w s t st p = .stop .timedOut → ((t : Int) - 1) * 1000000 < spec_elapsed_ns s c) := by
  have hstep := step_idle w s c t st p _ hr hclk (delta_eq w s c hs hs1 hs2 hc1 hc2 hle hfit)
  rw [hstep]
  unfold spec_elapsed_ns at *
  by_cases h : (t : Int) ≤ (c.tv_sec * 1000 + c.tv_nsec / 1000000)
      - (s.tv_sec * 1000 + s.tv_nsec / 1000000)
  · rw [if_pos h]
    refine ⟨by simp [h], Or.inl rfl, fun _ => rfl, fun _ => by omega⟩
  · rw [if_neg h]
    refine ⟨by simp [h], Or.inr rfl, fun h2 => absurd (by omega) h, fun h2 => by cases h2⟩

/-- C5 at the readings 0 s 999999 ns and 0 s 1000000 ns with a timeout of 1 ms. -/
theorem C5_timeout_whole_milliseconds_witness :
    (step 64 ⟨0, 999999⟩ 1 initial (idlePoll ⟨0, 1000000⟩) = .stop .timedOut ↔
        ((1 : Nat) : Int) ≤ ((0 : Int) * 1000 + 1000000 / 1000000)
          - ((0 : Int) * 1000 + 999999 / 1000000))
      ∧ (step 64 ⟨0, 999999⟩ 1 initial (idlePoll ⟨0, 1000000⟩) = .stop .timedOut
          ∨ step 64 ⟨0, 999999⟩ 1 initial (idlePoll ⟨0, 1000000⟩) = .next initial)
      ∧ (((1 : Nat) : Int) * 1000000 ≤ spec_elapsed_ns ⟨0, 999999⟩ ⟨0, 1000000⟩ →
          step 64 ⟨0, 999999⟩ 1 initial (idlePoll ⟨0, 1000000⟩) = .stop .timedOut)
      ∧ (step 64 ⟨0, 999999⟩ 1 initial (idlePoll ⟨0, 1000000⟩) = .stop .timedOut →
          (((1 : Nat) : Int) - 1) * 1000000 < spec_elapsed_ns ⟨0, 999999⟩ ⟨0, 1000000⟩) :=
  C5_timeout_whole_milliseconds 64 ⟨0, 999999⟩ ⟨0, 1000000⟩ 1 initial (idlePoll ⟨0, 1000000⟩)
    rfl rfl (by decide) (by decide) (by decide) (by decide) (by decide) (by decide) (by decide)

/-- C5 fails as stated: with the start reading 0 s 999999 ns, the current reading
0 s 1000000 ns and a timeout of 1 ms the loop fails with TimedOut, although the
elapsed time is one nanosecond. -/
theorem C5_counterexample :
    step 64 ⟨0, 999999⟩ 1 initial (idlePoll ⟨0, 1000000⟩) = .stop .timedOut
      ∧ spec_elapsed_ns ⟨0, 999999⟩ ⟨0, 1000000⟩ = 1
      ∧ ¬ ((1 : Int) * 1000000 ≤ spec_elapsed_ns ⟨0, 999999⟩ ⟨0, 1000000⟩) := by
  refine ⟨by decide, by decide, by decide⟩

/-- C9: the deadline is consulted only on passes that find nothing readable.  A
pass that delivers a byte never yields TimedOut, and what it does depends neither
on the clock nor on the timeout; so a run of ordinary bytes followed by CR, each
delivered, is framed to Done whatever the clock reads on each pass. -/
theorem C9_deadline_only_when_idle (w : Nat) (s : Timespec) (t : Nat) (st : State) (p : Poll)
    (ps : List Poll) (pt : Poll) (rest : List Poll)
    (hp : p.delivers)
    (hd : ∀ q ∈ ps, q.delivers) (hord : ∀ b ∈ ps.map Poll.c, ordinary b)
    (hpt : pt.delivers) (hcr : pt.c = CR) :
    step w s t st p ≠ .stop .timedOut
      ∧ (∀ (w2 : Nat) (s2 : Timespec) (t2 : Nat) (k : Option Timespec),
          step w2 s2 t2 st { p with clock := k } = step w s t st p)
      ∧ loop w s t initial (ps ++ pt :: rest)
          = (.stopped (.done (stateOf ((ps.map Poll.c).take BUFFER_SIZE) 0)), rest) := by
  obtain ⟨h1, h2, h3⟩ := hp
  have h4 : ¬ p.rr < 0 := by omega
  have h5 : ¬ p.rr = 0 := by omega
  refine ⟨?_, ?_, ?_⟩
  · simp only [step, h1, h2, h4, h5, if_false, ne_eq, not_false_eq_true, if_true]
    split_ifs <;> simp
  · intro w2 s2 t2 k
    simp only [step, h1, h2, h4, h5, if_false, ne_eq, not_false_eq_true, if_true]
  · have h := loop_delimited w s t ps [pt] rest hd hord
      (by intro q hq; rw [List.mem_singleton] at hq; exact hq ▸ hpt) (Or.inl (by simp [hcr]))
    simpa using h

/-- C9 at the response "12.5" followed by CR, every byte delivered with the clock
at 100 s, the start at 0 s and a timeout of 1 ms: a pass that found nothing
readable with that clock would time out. -/
theorem C9_deadline_only_when_idle_witness :
    step 64 ⟨0, 0⟩ 1 initial (idlePoll ⟨100, 0⟩) = .stop .timedOut
      ∧ step 64 ⟨0, 0⟩ 1 initial (bytePoll 0x31 (some ⟨100, 0⟩)) ≠ .stop .timedOut
      ∧ (∀ (w2 : Nat) (s2 : Timespec) (t2 : Nat) (k : Option Timespec),
          step w2 s2 t2 initial { bytePoll 0x31 (some ⟨100, 0⟩) with clock := k }
            = step 64 ⟨0, 0⟩ 1 initial (bytePoll 0x31 (some ⟨100, 0⟩)))
      ∧ loop 64 ⟨0, 0⟩ 1 initial
          ([bytePoll 0x31 (some ⟨100, 0⟩), bytePoll 0x32 (some ⟨100, 0⟩),
            bytePoll 0x2e (some ⟨100, 0⟩), bytePoll 0x35 (some ⟨100, 0⟩)]
            ++ bytePoll CR (some ⟨100, 0⟩) :: [])
          = (.stopped (.done (stateOf
              (([bytePoll 0x31 (some ⟨100, 0⟩), bytePoll 0x32 (some ⟨100, 0⟩),
                bytePoll 0x2e (some ⟨100, 0⟩), bytePoll 0x35 (some ⟨100, 0⟩)].map Poll.c).take
                BUFFER_SIZE) 0)), []) :=
  ⟨by decide,
    C9_deadline_only_when_idle 64 ⟨0, 0⟩ 1 initial (bytePoll 0x31 (some ⟨100, 0⟩))
      [bytePoll 0x31 (some ⟨100, 0⟩), bytePoll 0x32 (some ⟨100, 0⟩),
        bytePoll 0x2e (some ⟨100, 0⟩), bytePoll 0x35 (some ⟨100, 0⟩)]
      (bytePoll CR (some ⟨100, 0⟩)) [] (by decide) (by decide) (by simp [ordinary, bytePoll])
      (by decide) rfl⟩

/-- C10: on a stream of delivered bytes the loop reaches Done exactly at the first
position k that holds a CR or the second LF of the stream (the two LF adjacent or
not): it is still polling after every shorter run, it consumes nothing after
position k, and it has stored the first 1024 of the bytes before k with every LF
removed, so the stored bytes hold neither LF nor CR.  A stream with no CR and
fewer than two LF leaves the loop polling after all of it. -/
theorem C10_reference_framing (w : Nat) (s : Timespec) (t : Nat) (ps : List Poll) (k : Nat)
    (hd : ∀ p ∈ ps, p.delivers) (hk : spec_firstTerminator (ps.map Poll.c) k) :
    loop w s t initial ps
        = (.stopped (.done (stateOf (spec_frame (ps.map Poll.c) k)
            (((ps.map Poll.c).take k).count 10))), ps.drop (k + 1))
      ∧ (stateOf (spec_frame (ps.map Poll.c) k) (((ps.map Poll.c).take k).count 10)).response
          = spec_frame (ps.map Poll.c) k
      ∧ (∀ j ≤ k, ∃ st, loop w s t initial (ps.take j) = (.polling st, []))
      ∧ (10 : Byte) ∉ spec_frame (ps.map Poll.c) k
      ∧ (13 : Byte) ∉ spec_frame (ps.map Poll.c) k
      ∧ (∀ qs : List Poll, (∀ q ∈ qs, q.delivers) → (13 : Byte) ∉ qs.map Poll.c →
          (qs.map Poll.c).count 10 < 2 → ∃ st, loop w s t initial qs = (.polling st, [])) := by
  refine ⟨loop_first_terminator w s t ps k hd hk, stateOf_response _ _, ?_, ?_, ?_, ?_⟩
  · intro j hj
    obtain ⟨hcr, hcount⟩ := no_terminator_before (ps.map Poll.c) j
      (fun i hi => hk.2 i (Nat.lt_of_lt_of_le hi hj))
    have hmap : (ps.take j).map Poll.c = (ps.map Poll.c).take j := List.map_take _ _ _
    exact ⟨_, loop_polling_of_no_terminator w s t (ps.take j)
      (fun p hp => hd p (List.mem_of_mem_take hp))
      (fun p hp => hcr p.c (by rw [← hmap]; exact List.mem_map_of_mem _ hp))
      (by rw [hmap]; exact hcount)⟩
  · intro h
    have h1 := List.mem_of_mem_take h
    simp at h1
  · intro h
    have h1 := List.mem_of_mem_take h
    have h2 := (List.mem_filter.1 h1).1
    exact (no_terminator_before (ps.map Poll.c) k hk.2).1 13 h2 rfl
  · intro qs hq hcr hcount
    exact ⟨_, loop_polling_of_no_terminator w s t qs hq
      (fun p hp hc => hcr (hc ▸ List.mem_map_of_mem _ hp)) (by omega)⟩

/-- C10 at the stream 0x31, LF, 0x32, LF, 0x33: the terminator stands at position 3. -/
theorem C10_reference_framing_witness :
    loop 64 ⟨0, 0⟩ 100 initial
        [bytePoll 0x31 none, bytePoll LF none, bytePoll 0x32 none, bytePoll LF none,
          bytePoll 0x33 none]
        = (.stopped (.done (stateOf [0x31, 0x32] 1)), [bytePoll 0x33 none])
      ∧ spec_frame [0x31, LF, 0x32, LF, 0x33] 3 = [0x31, 0x32] :=
  ⟨(C10_reference_framing 64 ⟨0, 0⟩ 100
      [bytePoll 0x31 none, bytePoll LF none, bytePoll 0x32 none, bytePoll LF none,
        bytePoll 0x33 none] 3 (by decide) (by decide)).1, by decide⟩

end ReadSensor
